import Mathlib

/-!
Verification of the cbor-gen code generator (`src/gen.go`) against its
specification.

The generator emits Go encoders/decoders for record types.  We shallowly
embed the *semantics of the emitted code*: byte streams are `List Nat`
(each element a byte value), readers are modelled by state passing on the
remaining byte list, and fallible operations return `Option`.  Go `uint64`
values are `Nat` (with explicit `% 2^64` where Go conversions wrap) and Go
`int64` values are `Int`.

The runtime-support library referenced by the emitted code (header
reader/writer, string reader, peeker, link scanner) is not part of
`src/`; those operations are modelled from the spec (§4.3) and are marked
`Modelled from the spec:` below.  Everything else is translated from the
templates and helper functions in `src/gen.go`.
-/

/-! ## Major types and limits (`src/gen.go`, spec §4.3, glossary) -/

/-- Major type 0: unsigned integer. -/
def MajUnsignedInt : Nat := 0
/-- Major type 1: negative integer. -/
def MajNegativeInt : Nat := 1
/-- Major type 2: byte string. -/
def MajByteString : Nat := 2
/-- Major type 3: text string. -/
def MajTextString : Nat := 3
/-- Major type 4: array. -/
def MajArray : Nat := 4
/-- Major type 5: map. -/
def MajMap : Nat := 5
/-- Major type 6: tag. -/
def MajTag : Nat := 6
/-- Major type 7: other (simple values). -/
def MajOther : Nat := 7

/-- `const MaxLength = 8192` (src/gen.go line 14). -/
def MaxLength : Nat := 8192

/-- `const ByteArrayMaxLen = 2 << 20` (src/gen.go line 16), i.e. 2097152. -/
def ByteArrayMaxLen : Nat := 2 * 2 ^ 20

/-- Modelled from the spec: `CborNull` is the single byte `0xF6`
(major=Other, value=22); the runtime constant is not under `src/`. -/
def cborNull : List Nat := [0xF6]

/-! ## Big-endian byte groups

Helpers for the multi-byte forms of a TLV header. -/

/-- The `k`-byte big-endian encoding of `v` (valid bytes when `v < 256^k`). -/
def beBytes : Nat → Nat → List Nat
  | 0, _ => []
  | k + 1, v => v / 256 ^ k :: beBytes k (v % 256 ^ k)

/-- Read `k` bytes, folding them big-endian onto the accumulator `acc`. -/
def beReadAux : Nat → Nat → List Nat → Option (Nat × List Nat)
  | 0, acc, bs => some (acc, bs)
  | _ + 1, _, [] => none
  | k + 1, acc, b :: rest => beReadAux k (acc * 256 + b) rest

theorem beReadAux_beBytes :
    ∀ (k acc w : Nat) (rest : List Nat), w < 256 ^ k →
      beReadAux k acc (beBytes k w ++ rest) = some (acc * 256 ^ k + w, rest) := by
  intro k
  induction k with
  | zero =>
    intro acc w rest hw
    have hw0 : w = 0 := by omega
    subst hw0
    simp [beBytes, beReadAux]
  | succ k ih =>
    intro acc w rest hw
    have hpos : 0 < 256 ^ k := Nat.pos_pow_of_pos k (by omega)
    simp only [beBytes, List.cons_append, beReadAux, List.append_eq]
    rw [ih (acc * 256 + w / 256 ^ k) (w % 256 ^ k) rest (Nat.mod_lt _ hpos)]
    have hdm : 256 ^ k * (w / 256 ^ k) + w % 256 ^ k = w := Nat.div_add_mod w (256 ^ k)
    have hp : 256 ^ (k + 1) = 256 ^ k * 256 := pow_succ 256 k
    congr 2
    calc (acc * 256 + w / 256 ^ k) * 256 ^ k + w % 256 ^ k
        = acc * (256 ^ k * 256) + (256 ^ k * (w / 256 ^ k) + w % 256 ^ k) := by ring
      _ = acc * (256 ^ k * 256) + w := by rw [hdm]
      _ = acc * 256 ^ (k + 1) + w := by rw [hp]

/-! ## TLV header codec

Modelled from the spec (§4.3): `WriteMajorTypeHeader` writes the canonical
shortest-form header for a major type and 64-bit value; `ReadHeader` reads a
single canonical header back.  The runtime implementations are not under
`src/`. -/

/-- Modelled from the spec: `WriteMajorTypeHeader(sink, scratch, major, value)`
— the canonical shortest-form TLV header bytes. -/
def writeMajorTypeHeaderBuf (maj v : Nat) : List Nat :=
  if v < 24 then [maj * 32 + v]
  else if v < 256 then (maj * 32 + 24) :: beBytes 1 v
  else if v < 65536 then (maj * 32 + 25) :: beBytes 2 v
  else if v < 4294967296 then (maj * 32 + 26) :: beBytes 4 v
  else (maj * 32 + 27) :: beBytes 8 v

/-- Modelled from the spec: `ReadHeader(reader, scratch) → (major, value)` —
read a single canonical header, returning the major type, the value and the
remaining bytes; `none` on truncation, a malformed low-bits field, or a
non-canonical (non-shortest-form) length. -/
def cborReadHeaderBuf : List Nat → Option (Nat × Nat × List Nat)
  | [] => none
  | b :: rest =>
    if b % 32 < 24 then some (b / 32, b % 32, rest)
    else if b % 32 = 24 then
      match beReadAux 1 0 rest with
      | none => none
      | some (v, r) => if v < 24 then none else some (b / 32, v, r)
    else if b % 32 = 25 then
      match beReadAux 2 0 rest with
      | none => none
      | some (v, r) => if v < 256 then none else some (b / 32, v, r)
    else if b % 32 = 26 then
      match beReadAux 4 0 rest with
      | none => none
      | some (v, r) => if v < 65536 then none else some (b / 32, v, r)
    else if b % 32 = 27 then
      match beReadAux 8 0 rest with
      | none => none
      | some (v, r) => if v < 4294967296 then none else some (b / 32, v, r)
    else none

/-- A canonical header reads back to exactly the major type and value that
were written, leaving the trailing bytes untouched. -/
theorem cborReadHeaderBuf_write (maj v : Nat) (tail : List Nat) (hv : v < 2 ^ 64) :
    cborReadHeaderBuf (writeMajorTypeHeaderBuf maj v ++ tail) = some (maj, v, tail) := by
  unfold writeMajorTypeHeaderBuf
  by_cases h24 : v < 24
  · rw [if_pos h24]
    have hmod : (maj * 32 + v) % 32 = v := by omega
    have hdiv : (maj * 32 + v) / 32 = maj := by omega
    simp [cborReadHeaderBuf, hmod, hdiv, h24]
  · rw [if_neg h24]
    by_cases h256 : v < 256
    · rw [if_pos h256]
      have hmod : (maj * 32 + 24) % 32 = 24 := by omega
      have hdiv : (maj * 32 + 24) / 32 = maj := by omega
      have hb : beReadAux 1 0 (beBytes 1 v ++ tail) = some (0 * 256 ^ 1 + v, tail) :=
        beReadAux_beBytes 1 0 v tail (by norm_num; omega)
      simp only [List.cons_append, cborReadHeaderBuf, hmod, hdiv]
      norm_num at hb ⊢
      rw [hb]
      simp [h24]
    · rw [if_neg h256]
      by_cases h65536 : v < 65536
      · rw [if_pos h65536]
        have hmod : (maj * 32 + 25) % 32 = 25 := by omega
        have hdiv : (maj * 32 + 25) / 32 = maj := by omega
        have hb : beReadAux 2 0 (beBytes 2 v ++ tail) = some (0 * 256 ^ 2 + v, tail) :=
          beReadAux_beBytes 2 0 v tail (by norm_num; omega)
        simp only [List.cons_append, cborReadHeaderBuf, hmod, hdiv]
        norm_num at hb ⊢
        rw [hb]
        simp [h256]
      · rw [if_neg h65536]
        by_cases h32 : v < 4294967296
        · rw [if_pos h32]
          have hmod : (maj * 32 + 26) % 32 = 26 := by omega
          have hdiv : (maj * 32 + 26) / 32 = maj := by omega
          have hb : beReadAux 4 0 (beBytes 4 v ++ tail) = some (0 * 256 ^ 4 + v, tail) :=
            beReadAux_beBytes 4 0 v tail (by norm_num; omega)
          simp only [List.cons_append, cborReadHeaderBuf, hmod, hdiv]
          norm_num at hb ⊢
          rw [hb]
          simp [h65536]
        · rw [if_neg h32]
          have hmod : (maj * 32 + 27) % 32 = 27 := by omega
          have hdiv : (maj * 32 + 27) / 32 = maj := by omega
          have hb : beReadAux 8 0 (beBytes 8 v ++ tail) = some (0 * 256 ^ 8 + v, tail) :=
            beReadAux_beBytes 8 0 v tail (by norm_num; omega)
          simp only [List.cons_append, cborReadHeaderBuf, hmod, hdiv]
          norm_num at hb ⊢
          rw [hb]
          simp [h32]

/-- For a major type at most 5, the first header byte is never the null
sentinel `0xF6`; used for the optional-field peek analysis. -/
theorem writeMajorTypeHeaderBuf_head (maj v : Nat) (hm : maj ≤ 5) :
    ∃ b bs, writeMajorTypeHeaderBuf maj v = b :: bs ∧ b ≠ 0xF6 := by
  unfold writeMajorTypeHeaderBuf
  by_cases h24 : v < 24
  · exact ⟨maj * 32 + v, [], by rw [if_pos h24], by omega⟩
  · rw [if_neg h24]
    by_cases h256 : v < 256
    · exact ⟨maj * 32 + 24, beBytes 1 v, by rw [if_pos h256], by omega⟩
    · rw [if_neg h256]
      by_cases h65536 : v < 65536
      · exact ⟨maj * 32 + 25, beBytes 2 v, by rw [if_pos h65536], by omega⟩
      · rw [if_neg h65536]
        by_cases h32 : v < 4294967296
        · exact ⟨maj * 32 + 26, beBytes 4 v, by rw [if_pos h32], by omega⟩
        · exact ⟨maj * 32 + 27, beBytes 8 v, by rw [if_neg h32], by omega⟩

/-! ## Per-field emitted code, primitive shapes

Each definition is the semantics of the Go code produced by the
corresponding emitter template in `src/gen.go`. -/

/-- `emitCborMarshalStringField` (src/gen.go lines 244-259): reject values
longer than `cbg.MaxLength`, then emit a `TextString` header followed by the
raw bytes.  Textual values are byte lists here. -/
def cborMarshalStringField (s : List Nat) : Option (List Nat) :=
  if s.length > MaxLength then none
  else some (writeMajorTypeHeaderBuf MajTextString s.length ++ s)

/-- Modelled from the spec: `ReadString(reader, scratch, maxlen)` (§4.3) as
used by `emitCborUnmarshalStringField` (src/gen.go lines 579-596): read a
header, require `TextString` major and length at most `MaxLength`, then read
that many bytes. -/
def readStringBuf (bs : List Nat) : Option (List Nat × List Nat) :=
  match cborReadHeaderBuf bs with
  | none => none
  | some (maj, extra, rest) =>
    if maj ≠ MajTextString then none
    else if extra > MaxLength then none
    else if rest.length < extra then none
    else some (rest.take extra, rest.drop extra)

/-- `emitCborMarshalUint64Field` (src/gen.go lines 310-324), non-pointer
branch: emit an `UnsignedInt` header carrying the value. -/
def cborMarshalUint64Field (v : Nat) : List Nat :=
  writeMajorTypeHeaderBuf MajUnsignedInt v

/-- `emitCborUnmarshalUint64Field` (src/gen.go lines 726-760), non-pointer
branch: read a header and require the `UnsignedInt` major. -/
def cborUnmarshalUint64Field (bs : List Nat) : Option (Nat × List Nat) :=
  match cborReadHeaderBuf bs with
  | none => none
  | some (maj, extra, rest) =>
    if maj ≠ MajUnsignedInt then none
    else some (extra, rest)

/-- `emitCborMarshalUint64Field` (src/gen.go lines 310-324), pointer branch:
a nil pointer emits `cbg.CborNull`, otherwise the `UnsignedInt` header for
the pointed-to value. -/
def cborMarshalUint64PtrField : Option Nat → List Nat
  | none => cborNull
  | some v => writeMajorTypeHeaderBuf MajUnsignedInt v

/-- `emitCborUnmarshalUint64Field` (src/gen.go lines 726-760), pointer
branch: read one byte; if it is `CborNull[0]` the field stays nil, otherwise
the byte is unread and a normal `UnsignedInt` header read follows. -/
def cborUnmarshalUint64PtrField : List Nat → Option (Option Nat × List Nat)
  | [] => none
  | b :: rest =>
    if b = 0xF6 then some (none, rest)
    else
      match cborReadHeaderBuf (b :: rest) with
      | none => none
      | some (maj, extra, r) =>
        if maj ≠ MajUnsignedInt then none
        else some (some extra, r)

/-- Go conversion `uint64(x)` of a (possibly wrapped) `int64` expression:
the value mod `2^64`.  Intermediate `int64` overflow in Go wraps mod `2^64`,
so a whole expression's `uint64` image is its mathematical value mod
`2^64`. -/
def goUint64OfInt (x : Int) : Nat := (x % (2 ^ 64 : Int)).toNat

/-- Go conversion `int64(extra)` of a `uint64`: values at and above `2^63`
wrap to negatives. -/
def goInt64OfUint64 (n : Nat) : Int :=
  if n < 2 ^ 63 then (n : Int) else (n : Int) - 2 ^ 64

/-- `emitCborMarshalInt64Field` (src/gen.go lines 335-351): a nonnegative
value emits `(UnsignedInt, uint64(v))`, a negative one emits
`(NegativeInt, uint64(-v-1))`. -/
def cborMarshalInt64Field (v : Int) : List Nat :=
  if 0 ≤ v then writeMajorTypeHeaderBuf MajUnsignedInt (goUint64OfInt v)
  else writeMajorTypeHeaderBuf MajNegativeInt (goUint64OfInt (-v - 1))

/-- `emitCborUnmarshalInt64Field` (src/gen.go lines 698-724): accept both
integer majors; reject a header value whose `int64` image is negative
(overflow); map `NegativeInt(extra)` to `-1 - extra`. -/
def cborUnmarshalInt64Field (bs : List Nat) : Option (Int × List Nat) :=
  match cborReadHeaderBuf bs with
  | none => none
  | some (maj, extra, rest) =>
    if maj = MajUnsignedInt then
      let extraI := goInt64OfUint64 extra
      if extraI < 0 then none else some (extraI, rest)
    else if maj = MajNegativeInt then
      let extraI := goInt64OfUint64 extra
      if extraI < 0 then none else some (-1 - extraI, rest)
    else none

/-- `emitCborMarshalSliceField` (src/gen.go lines 415-434), byte-element
branch: reject slices longer than `cbg.ByteArrayMaxLen`, then emit a
`ByteString` header and the raw bytes.  The constant ceiling is used
unconditionally; no per-field override exists. -/
def cborMarshalByteSliceField (v : List Nat) : Option (List Nat) :=
  if v.length > ByteArrayMaxLen then none
  else some (writeMajorTypeHeaderBuf MajByteString v.length ++ v)

/-- `ParseTypeInfo` (src/gen.go lines 198-202): the wire key is the field
name unless the `cborgen` tag is non-empty, in which case the whole tag
value becomes the wire key. -/
def fieldMapKey (name tagval : String) : String :=
  if tagval ≠ "" then tagval else name

/-! ## Optional (pointer) fields, generic shape

The emitted pattern shared by pointer-to-record, pointer-to-CID and
pointer-to-uint64 fields (src/gen.go lines 284-298, 310-324, 637-653,
674-694, 726-760). -/

/-- Generic emitted encoder for an optional field: absent emits
`cbg.CborNull`, present delegates to the inner encoder. -/
def marshalOptionalField {α : Type} (enc : α → Option (List Nat)) :
    Option α → Option (List Nat)
  | none => some cborNull
  | some a => enc a

/-- Generic emitted decoder for an optional field: peek one byte; the null
sentinel leaves the field absent, any other byte is unread and the inner
decode proceeds. -/
def unmarshalOptionalField {α : Type} (dec : List Nat → Option (α × List Nat)) :
    List Nat → Option (Option α × List Nat)
  | [] => none
  | b :: rest =>
    if b = 0xF6 then some (none, rest)
    else
      match dec (b :: rest) with
      | none => none
      | some (a, r) => some (some a, r)

/-! ## Link scanner

Modelled from the spec: `ScanForLinks(reader, visitor)` skips exactly one
TLV value (§4.3).  `scanSkip fuel count bs` skips `count` pending values;
integer and simple values end at their header, strings consume their
payload, arrays and maps add their element counts, a tag adds one value.
The fuel only bounds recursion depth; `bs.length + 1` suffices because each
step consumes at least the one-byte header. -/
def scanSkip : Nat → Nat → List Nat → Option (List Nat)
  | _, 0, bs => some bs
  | 0, _ + 1, _ => none
  | fuel + 1, count + 1, bs =>
    match cborReadHeaderBuf bs with
    | none => none
    | some (maj, extra, rest) =>
      if maj = MajUnsignedInt ∨ maj = MajNegativeInt ∨ maj = MajOther then
        scanSkip fuel count rest
      else if maj = MajByteString ∨ maj = MajTextString then
        if rest.length < extra then none else scanSkip fuel count (rest.drop extra)
      else if maj = MajTag then scanSkip fuel (count + 1) rest
      else if maj = MajArray then scanSkip fuel (count + extra) rest
      else if maj = MajMap then scanSkip fuel (count + 2 * extra) rest
      else none

/-- Skip a single TLV value, returning the bytes that follow it. -/
def scanValue (bs : List Nat) : Option (List Nat) :=
  scanSkip (bs.length + 1) 1 bs

/-! ## Record framing, tuple form -/

/-- `GenTypeInfo.TupleHeader` (src/gen.go lines 216-218): the frame header
precomputed at generation time — an `Array` header whose length is the
field count.  `CborEncodeMajorType` is the runtime header synthesizer, not
under `src/`; modelled from the spec as the canonical shortest form. -/
def tupleHeader (nFields : Nat) : List Nat :=
  writeMajorTypeHeaderBuf MajArray nFields

/-- `GenTypeInfo.MapHeader` (src/gen.go lines 230-232): the precomputed
`Map` frame header for named-map form. -/
def mapHeader (nFields : Nat) : List Nat :=
  writeMajorTypeHeaderBuf MajMap nFields

/-- `emitCborMarshalStructTuple` (src/gen.go lines 512-577): write the
precomputed byte-literal frame header, then the field encodings in
declaration order.  `body` is the concatenated field encodings, `none` when
some field encoder reported an error. -/
def marshalStructTuple (nFields : Nat) (body : Option (List Nat)) : Option (List Nat) :=
  match body with
  | none => none
  | some bs => some (tupleHeader nFields ++ bs)

/-- `emitCborUnmarshalStructTuple` (src/gen.go lines 1033-1056): the decoder
first does `*t = Name{}` (discarding `tPrior`), reads the frame header,
requires the `Array` major and exactly the compiled-in field count, then
runs the field decoders in declaration order starting from the zero
value. -/
def unmarshalStructTuple {α : Type} (nFields : Nat) (dflt : α)
    (body : α → List Nat → Option (α × List Nat)) (_tPrior : α) (input : List Nat) :
    Option (α × List Nat) :=
  let t := dflt
  match cborReadHeaderBuf input with
  | none => none
  | some (maj, extra, rest) =>
    if maj ≠ MajArray then none
    else if extra ≠ nFields then none
    else body t rest

/-- The `UnmarshalCBOR` surface for tuple form: the record on success. -/
def unmarshalStructTupleRecord {α : Type} (nFields : Nat) (dflt : α)
    (body : α → List Nat → Option (α × List Nat)) (_tPrior : α) (input : List Nat) :
    Option α :=
  (unmarshalStructTuple nFields dflt body _tPrior input).map Prod.fst

/-! ## Record framing, named-map form -/

/-- `emitCborMarshalStructMap` (src/gen.go lines 1120-1189): write the
precomputed `Map` frame header, then — iterating `gti.Fields` in
declaration order — each field's wire key as a text string followed by the
field's encoding.  A field is a pair of its wire-key bytes and its
encoding result. -/
def marshalStructMap (fields : List (List Nat × Option (List Nat))) : Option (List Nat) :=
  List.foldlM (fun acc kf =>
      match cborMarshalStringField kf.1 with
      | none => none
      | some kb =>
        match kf.2 with
        | none => none
        | some vb => some (acc ++ kb ++ vb))
    (mapHeader fields.length) fields

/-- The same emission with the fields first sorted ascending by wire-key
byte sequence.  This follows the spec's words (§3 invariant 2, §4.2
named-map form), for comparison with `marshalStructMap` above, which
follows the source. -/
def marshalStructMapSortedSpec (fields : List (List Nat × Option (List Nat))) :
    Option (List Nat) :=
  marshalStructMap (List.insertionSort (fun p q => p.1 ≤ q.1) fields)

/-- The per-iteration body of `emitCborUnmarshalStructMap` (src/gen.go
lines 1214-1293): read one text key, dispatch on it through the generated
`switch`; a known key runs its field decoder, an unknown key falls to the
default branch, which calls `cbg.ScanForLinks(r, ...)` *discarding its
result* and continues the loop.  On a scanner error the reader is left
where scanning stopped (at end of input for a truncated value), which the
discard models as continuing with the scanner's remainder, `[]` on
failure. -/
def unmarshalStructMapLoop {R : Type}
    (dispatch : List Nat → Option (R → List Nat → Option (R × List Nat))) :
    Nat → R → List Nat → Option (R × List Nat)
  | 0, t, bs => some (t, bs)
  | n + 1, t, bs =>
    match readStringBuf bs with
    | none => none
    | some (name, rest) =>
      match dispatch name with
      | some fdec =>
        match fdec t rest with
        | none => none
        | some (t2, rest2) => unmarshalStructMapLoop dispatch n t2 rest2
      | none => unmarshalStructMapLoop dispatch n t ((scanValue rest).getD [])

/-- `emitCborUnmarshalStructMap` (src/gen.go lines 1191-1293): `*t = Name{}`
(discarding `tPrior`), read the frame header, require the `Map` major and a
length at most `cbg.MaxLength`, then run the key-dispatch loop that many
times starting from the zero value. -/
def unmarshalStructMap {R : Type} (dflt : R)
    (dispatch : List Nat → Option (R → List Nat → Option (R × List Nat)))
    (_tPrior : R) (input : List Nat) : Option R :=
  let t := dflt
  match cborReadHeaderBuf input with
  | none => none
  | some (maj, extra, rest) =>
    if maj ≠ MajMap then none
    else if extra > MaxLength then none
    else (unmarshalStructMapLoop dispatch extra t rest).map Prod.fst

/-! ## Map(Text, elem) fields

`emitCborMarshalMapField` (src/gen.go lines 361-413) and
`emitCborUnmarshalMapField` (src/gen.go lines 798-870).  A Go map value is
modelled as an association list whose order stands for the (arbitrary)
iteration order of the Go map; the keys of a Go map are distinct. -/

/-- `emitCborMarshalMapField` (src/gen.go lines 361-413): reject maps with
more than 4096 entries; emit a `Map` header; collect the keys, sort them
ascending (`sort.Strings`, raw byte order), then for each key look up its
value and emit the key as a text string followed by the value by the
element encoder. -/
def cborMarshalMapField {V : Type} (encV : V → Option (List Nat))
    (m : List (List Nat × V)) : Option (List Nat) :=
  if m.length > 4096 then none
  else
    List.foldlM (fun acc k =>
        match m.lookup k with
        | none => none
        | some v =>
          match cborMarshalStringField k with
          | none => none
          | some kb =>
            match encV v with
            | none => none
            | some vb => some (acc ++ kb ++ vb))
      (writeMajorTypeHeaderBuf MajMap m.length)
      (List.insertionSort (fun a b : List Nat => a ≤ b) (m.map Prod.fst))

/-- The key/value loop of `emitCborUnmarshalMapField`: read a text key,
decode a value, record the pair. -/
def cborUnmarshalMapFieldLoop {V : Type} (decV : List Nat → Option (V × List Nat)) :
    Nat → List (List Nat × V) → List Nat → Option (List (List Nat × V) × List Nat)
  | 0, acc, bs => some (acc, bs)
  | n + 1, acc, bs =>
    match readStringBuf bs with
    | none => none
    | some (k, rest) =>
      match decV rest with
      | none => none
      | some (v, rest2) => cborUnmarshalMapFieldLoop decV n (acc ++ [(k, v)]) rest2

/-- `emitCborUnmarshalMapField` (src/gen.go lines 798-818): read the field
header, require the `Map` major, reject a length above 4096, then read that
many key/value pairs. -/
def cborUnmarshalMapField {V : Type} (decV : List Nat → Option (V × List Nat))
    (input : List Nat) : Option (List (List Nat × V) × List Nat) :=
  match cborReadHeaderBuf input with
  | none => none
  | some (maj, extra, rest) =>
    if maj ≠ MajMap then none
    else if extra > 4096 then none
    else cborUnmarshalMapFieldLoop decV extra [] rest

/-- Association-list lookup is stable under permutation when the keys are
distinct (a Go map's keys always are). -/
theorem lookup_eq_of_perm {V : Type} {l1 l2 : List (List Nat × V)}
    (hp : l1.Perm l2) (hnd : (l1.map Prod.fst).Nodup) (k : List Nat) :
    l1.lookup k = l2.lookup k := by
  induction hp with
  | nil => rfl
  | cons x p ih =>
    obtain ⟨kx, vx⟩ := x
    simp only [List.map_cons, List.nodup_cons] at hnd
    simp only [List.lookup]
    cases hkx : (k == kx) with
    | true => rfl
    | false => exact ih hnd.2
  | swap x y l =>
    obtain ⟨kx, vx⟩ := x
    obtain ⟨ky, vy⟩ := y
    simp only [List.map_cons, List.nodup_cons, List.mem_cons] at hnd
    simp only [List.lookup]
    cases hkx : (k == kx) with
    | true =>
      cases hky : (k == ky) with
      | true =>
        exfalso
        have h1 : k = kx := by simpa using hkx
        have h2 : k = ky := by simpa using hky
        exact hnd.1 (Or.inl (h2 ▸ h1 ▸ rfl))
      | false => rfl
    | false => rfl
  | trans p1 p2 ih1 ih2 =>
    have hnd2 : (_ : List (List Nat)).Nodup := ((p1.map Prod.fst).nodup_iff).mp hnd
    exact (ih1 hnd).trans (ih2 hnd2)

/-- The map-field encoder is insensitive to the Go map's iteration order:
permuting the association list (distinct keys) leaves the output bytes
unchanged. -/
theorem cborMarshalMapField_perm {V : Type} (encV : V → Option (List Nat))
    {l1 l2 : List (List Nat × V)} (hp : l1.Perm l2)
    (hnd : (l1.map Prod.fst).Nodup) :
    cborMarshalMapField encV l1 = cborMarshalMapField encV l2 := by
  have hlen := hp.length_eq
  have hkeys : (l1.map Prod.fst).Perm (l2.map Prod.fst) := hp.map Prod.fst
  have hsorted :
      List.insertionSort (fun a b : List Nat => a ≤ b) (l1.map Prod.fst) =
        List.insertionSort (fun a b : List Nat => a ≤ b) (l2.map Prod.fst) := by
    refine List.eq_of_perm_of_sorted
      ((List.perm_insertionSort _ _).trans
        (hkeys.trans (List.perm_insertionSort _ _).symm))
      (List.sorted_insertionSort _ _) (List.sorted_insertionSort _ _)
  have hfun :
      (fun (acc : List Nat) (k : List Nat) =>
        match l1.lookup k with
        | none => none
        | some v =>
          match cborMarshalStringField k with
          | none => none
          | some kb =>
            match encV v with
            | none => none
            | some vb => some (acc ++ kb ++ vb)) =
      (fun (acc : List Nat) (k : List Nat) =>
        match l2.lookup k with
        | none => none
        | some v =>
          match cborMarshalStringField k with
          | none => none
          | some kb =>
            match encV v with
            | none => none
            | some vb => some (acc ++ kb ++ vb)) := by
    funext acc k
    rw [lookup_eq_of_perm hp hnd k]
  unfold cborMarshalMapField
  rw [hlen, hsorted, hfun]

/-! ## Concrete generated decoders

Instances of the emitted named-map decoder for small schemas, used for the
spec's literal scenarios.  Wire keys are byte lists (`"A"` is `[0x41]`,
`"B"` is `[0x42]`). -/

/-- A one-field record `{A: U64}` — the spec's schema `S₀` (§8 scenario 6). -/
structure RecA where
  A : Nat
deriving DecidableEq

/-- The generated `switch` over wire keys for `RecA`: key `"A"` runs the
uint64 field decoder into `t.A`; any other key has no branch. -/
def dispatchRecA : List Nat → Option (RecA → List Nat → Option (RecA × List Nat)) :=
  fun key =>
    if key = [0x41] then
      some (fun t bs =>
        match cborUnmarshalUint64Field bs with
        | none => none
        | some (v, rest) => some ({ t with A := v }, rest))
    else none

/-- The generated named-map `UnmarshalCBOR` for `RecA`. -/
def unmarshalRecA : RecA → List Nat → Option RecA :=
  unmarshalStructMap ⟨0⟩ dispatchRecA

/-- A two-field record `{A: U64, B: U64}` with wire keys `"A"`, `"B"`. -/
structure RecAB where
  A : Nat
  B : Nat
deriving DecidableEq

/-- The generated `switch` over wire keys for `RecAB`. -/
def dispatchRecAB : List Nat → Option (RecAB → List Nat → Option (RecAB × List Nat)) :=
  fun key =>
    if key = [0x41] then
      some (fun t bs =>
        match cborUnmarshalUint64Field bs with
        | none => none
        | some (v, rest) => some ({ t with A := v }, rest))
    else if key = [0x42] then
      some (fun t bs =>
        match cborUnmarshalUint64Field bs with
        | none => none
        | some (v, rest) => some ({ t with B := v }, rest))
    else none

/-- The generated named-map `UnmarshalCBOR` for `RecAB`. -/
def unmarshalRecAB : RecAB → List Nat → Option RecAB :=
  unmarshalStructMap ⟨0, 0⟩ dispatchRecAB

/-! ## Claims -/

/-- C1: In tuple form the encoder frames the record with an `Array` header
whose length is the compiled-in field count, and the decoder rejects any
input whose array header carries a different length; a zero-field record
encodes to the single byte `0x80`, decoding `0x80` yields the empty record,
and decoding `0x81 0xF6` under the zero-field schema fails. -/
theorem claim_C1 :
    (∀ (n : Nat) (body : List Nat), n < 2 ^ 64 →
        marshalStructTuple n (some body) = some (tupleHeader n ++ body) ∧
        cborReadHeaderBuf (tupleHeader n ++ body) = some (MajArray, n, body)) ∧
    (∀ (α : Type) (n : Nat) (dflt : α) (body : α → List Nat → Option (α × List Nat))
        (prior : α) (input : List Nat) (maj extra : Nat) (rest : List Nat),
        cborReadHeaderBuf input = some (maj, extra, rest) → extra ≠ n →
        unmarshalStructTupleRecord n dflt body prior input = none) ∧
    marshalStructTuple 0 (some []) = some [0x80] ∧
    unmarshalStructTupleRecord 0 () (fun t bs => some (t, bs)) () [0x80] = some () ∧
    unmarshalStructTupleRecord 0 () (fun t bs => some (t, bs)) () [0x81, 0xF6] = none := by
  refine ⟨?_, ?_, by decide, by decide, by decide⟩
  · intro n body hn
    exact ⟨rfl, cborReadHeaderBuf_write MajArray n body hn⟩
  · intro α n dflt body prior input maj extra rest h hne
    unfold unmarshalStructTupleRecord unmarshalStructTuple
    rw [h]
    by_cases hm : maj = MajArray
    · simp [hm, hne]
    · simp [hm]

theorem claim_C1_witness :
    (2 : Nat) < 2 ^ 64 ∧
    cborReadHeaderBuf (tupleHeader 2 ++ [0, 0]) = some (MajArray, 2, [0, 0]) ∧
    (cborReadHeaderBuf [0x80] = some (4, 0, []) ∧ (0 : Nat) ≠ 1) ∧
    unmarshalStructTupleRecord 1 () (fun t bs => some (t, bs)) () [0x80] = none :=
  ⟨by decide, (claim_C1.1 2 [0, 0] (by norm_num)).2, ⟨by decide, by decide⟩,
    claim_C1.2.1 Unit 1 () (fun t bs => some (t, bs)) () [0x80] 4 0 [] (by decide) (by decide)⟩

/-- C2: For an `I64` field the encoder emits `(UnsignedInt, v)` for `v ≥ 0`
and `(NegativeInt, -v-1)` for `v < 0`; the decoder accepts both majors, maps
`NegativeInt(extra)` to `-1-extra`, and rejects as overflow any header value
at or above `2^63` under either major; every int64 value round-trips, and
`-1` encodes as `NegativeInt(0)`, the byte `0x20`. -/
theorem claim_C2 :
    (∀ (v : Int) (tail : List Nat), -(2 ^ 63) ≤ v → v < 2 ^ 63 →
        cborUnmarshalInt64Field (cborMarshalInt64Field v ++ tail) = some (v, tail) ∧
        (0 ≤ v → cborMarshalInt64Field v = writeMajorTypeHeaderBuf MajUnsignedInt v.toNat) ∧
        (v < 0 → cborMarshalInt64Field v = writeMajorTypeHeaderBuf MajNegativeInt (-v - 1).toNat)) ∧
    (∀ (m extra : Nat) (tail : List Nat), (m = MajUnsignedInt ∨ m = MajNegativeInt) →
        2 ^ 63 ≤ extra → extra < 2 ^ 64 →
        cborUnmarshalInt64Field (writeMajorTypeHeaderBuf m extra ++ tail) = none) ∧
    cborMarshalInt64Field (-1) = [0x20] := by
  refine ⟨?_, ?_, by decide⟩
  · intro v tail h1 h2
    by_cases hv : 0 ≤ v
    · have hmod : v % (2 ^ 64 : Int) = v := Int.emod_eq_of_lt hv (by omega)
      have henc : cborMarshalInt64Field v = writeMajorTypeHeaderBuf MajUnsignedInt v.toNat := by
        unfold cborMarshalInt64Field goUint64OfInt
        rw [if_pos hv, hmod]
      have hlt : v.toNat < 2 ^ 64 := by omega
      have hlt63 : v.toNat < 2 ^ 63 := by omega
      refine ⟨?_, fun _ => henc, fun hneg => absurd hneg (by omega)⟩
      rw [henc]
      unfold cborUnmarshalInt64Field
      rw [cborReadHeaderBuf_write MajUnsignedInt v.toNat tail hlt]
      have hgo : goInt64OfUint64 v.toNat = v := by
        unfold goInt64OfUint64
        rw [if_pos hlt63]
        omega
      simp [MajUnsignedInt, hgo, hv, not_lt.mpr hv]
    · push_neg at hv
      have hnn : (0 : Int) ≤ -v - 1 := by omega
      have hmod : (-v - 1) % (2 ^ 64 : Int) = -v - 1 := Int.emod_eq_of_lt hnn (by omega)
      have henc : cborMarshalInt64Field v =
          writeMajorTypeHeaderBuf MajNegativeInt (-v - 1).toNat := by
        unfold cborMarshalInt64Field goUint64OfInt
        rw [if_neg (by omega), hmod]
      obtain ⟨w, hw⟩ : ∃ w : Nat, (-v - 1).toNat = w := ⟨_, rfl⟩
      have hwv : (w : Int) = -v - 1 := by omega
      have hlt : w < 2 ^ 64 := by omega
      have hlt63 : w < 2 ^ 63 := by omega
      refine ⟨?_, fun hpos => absurd hpos (by omega), fun _ => henc⟩
      rw [henc, hw]
      unfold cborUnmarshalInt64Field
      rw [cborReadHeaderBuf_write MajNegativeInt w tail hlt]
      have hgo : goInt64OfUint64 w = -v - 1 := by
        unfold goInt64OfUint64
        rw [if_pos hlt63]
        omega
      have hnlt : ¬(-v - 1 < (0 : Int)) := not_lt.mpr hnn
      simp only [MajNegativeInt, MajUnsignedInt, hgo]
      simp [hnlt]
      omega
  · intro m extra tail hm h63 h64
    unfold cborUnmarshalInt64Field
    rw [cborReadHeaderBuf_write m extra tail h64]
    have hneg : goInt64OfUint64 extra < 0 := by
      unfold goInt64OfUint64
      rw [if_neg (by omega)]
      omega
    rcases hm with hm | hm <;> subst hm
    · simp [MajUnsignedInt, hneg]
    · simp [MajNegativeInt, MajUnsignedInt, hneg]

theorem claim_C2_witness :
    (-(2 ^ 63) ≤ (-9223372036854775808 : Int) ∧ (-9223372036854775808 : Int) < 2 ^ 63 ∧
      cborUnmarshalInt64Field (cborMarshalInt64Field (-9223372036854775808) ++ []) =
        some (-9223372036854775808, [])) ∧
    cborUnmarshalInt64Field (cborMarshalInt64Field (-1) ++ []) = some (-1, []) ∧
    cborUnmarshalInt64Field (cborMarshalInt64Field 0 ++ []) = some (0, []) ∧
    cborUnmarshalInt64Field (cborMarshalInt64Field 1 ++ []) = some (1, []) ∧
    cborUnmarshalInt64Field (cborMarshalInt64Field 9223372036854775807 ++ []) =
      some (9223372036854775807, []) ∧
    ((MajUnsignedInt = MajUnsignedInt ∨ MajUnsignedInt = MajNegativeInt) ∧
      2 ^ 63 ≤ 9223372036854775808 ∧ (9223372036854775808 : Nat) < 2 ^ 64 ∧
      cborUnmarshalInt64Field
        (writeMajorTypeHeaderBuf MajUnsignedInt 9223372036854775808 ++ []) = none) :=
  ⟨⟨by norm_num, by norm_num,
      (claim_C2.1 (-9223372036854775808) [] (by norm_num) (by norm_num)).1⟩,
    (claim_C2.1 (-1) [] (by norm_num) (by norm_num)).1,
    (claim_C2.1 0 [] (by norm_num) (by norm_num)).1,
    (claim_C2.1 1 [] (by norm_num) (by norm_num)).1,
    (claim_C2.1 9223372036854775807 [] (by norm_num) (by norm_num)).1,
    ⟨Or.inl rfl, by norm_num, by norm_num,
      claim_C2.2.1 MajUnsignedInt 9223372036854775808 [] (Or.inl rfl) (by norm_num)
        (by norm_num)⟩⟩

/-- Unfolding of the named-map field emission loop: when every wire key is
within the text-length ceiling, the output is the frame header followed by
each key/value emission in the order the fields are listed. -/
theorem marshalStructMapAux :
    ∀ (fs : List (List Nat × List Nat)) (acc : List Nat),
      (∀ p ∈ fs, p.1.length ≤ MaxLength) →
      List.foldlM (fun acc kf =>
          match cborMarshalStringField kf.1 with
          | none => none
          | some kb =>
            match kf.2 with
            | none => none
            | some vb => some (acc ++ kb ++ vb))
        acc (fs.map fun p => (p.1, some p.2)) =
      some (acc ++ (fs.map fun p =>
        (writeMajorTypeHeaderBuf MajTextString p.1.length ++ p.1) ++ p.2).flatten) := by
  intro fs
  induction fs with
  | nil =>
    intro acc h
    simp
  | cons p ps ih =>
    intro acc h
    obtain ⟨k, v⟩ := p
    have hk : k.length ≤ MaxLength := h (k, v) (List.mem_cons_self _ _)
    have hks : cborMarshalStringField k =
        some (writeMajorTypeHeaderBuf MajTextString k.length ++ k) := by
      unfold cborMarshalStringField
      rw [if_neg (by omega)]
    simp only [List.map_cons, List.foldlM_cons, hks, Option.bind_eq_bind,
      Option.some_bind]
    rw [ih (acc ++ (writeMajorTypeHeaderBuf MajTextString k.length ++ k) ++ v)
      (fun q hq => h q (List.mem_cons_of_mem _ hq))]
    simp [List.append_assoc]

/-- C3 counterexample: a two-field named-map schema declared with wire keys
`"b"` then `"a"` is emitted in that declaration order, which differs from
the claimed ascending-by-key-bytes emission. -/
theorem claim_C3_cex :
    marshalStructMap [([0x62], some [2]), ([0x61], some [1])] ≠
      marshalStructMapSortedSpec [([0x62], some [2]), ([0x61], some [1])] := by
  decide

/-- C3 (amended): for every record compiled in named-map form, the encoder
emits the key-value pairs in the fields' declaration order — the order of
the compiled schema — not sorted by wire-key bytes. -/
theorem claim_C3 :
    ∀ (fs : List (List Nat × List Nat)), (∀ p ∈ fs, p.1.length ≤ MaxLength) →
      marshalStructMap (fs.map fun p => (p.1, some p.2)) =
        some (mapHeader fs.length ++ (fs.map fun p =>
          (writeMajorTypeHeaderBuf MajTextString p.1.length ++ p.1) ++ p.2).flatten) := by
  intro fs h
  unfold marshalStructMap
  rw [List.length_map]
  exact marshalStructMapAux fs (mapHeader fs.length) h

theorem claim_C3_witness :
    (∀ p ∈ ([([0x62], [2]), ([0x61], [1])] : List (List Nat × List Nat)),
        p.1.length ≤ MaxLength) ∧
    marshalStructMap ([([0x62], [2]), ([0x61], [1])].map fun p => (p.1, some p.2)) =
      some (mapHeader ([([0x62], [2]), ([0x61], [1])] : List (List Nat × List Nat)).length ++
        (([([0x62], [2]), ([0x61], [1])] : List (List Nat × List Nat)).map fun p =>
          (writeMajorTypeHeaderBuf MajTextString p.1.length ++ p.1) ++ p.2).flatten) :=
  ⟨by decide, claim_C3 [([0x62], [2]), ([0x61], [1])] (by decide)⟩

/-- C4 counterexample: on a field declared `LargeBytes []byte` with tag
`cborgen:"maxlen=10000000"`, the analyzer makes the whole tag value the
wire key (altering it), and the emitted encoder still rejects a 3,000,000
byte value — the default 2,097,152 ceiling, not the annotated 10,000,000,
is enforced. -/
theorem claim_C4_cex :
    fieldMapKey "LargeBytes" "maxlen=10000000" = "maxlen=10000000" ∧
    cborMarshalByteSliceField (List.replicate 3000000 0) = none := by
  constructor
  · rfl
  · unfold cborMarshalByteSliceField
    rw [List.length_replicate]
    rw [if_pos (by norm_num [ByteArrayMaxLen])]

/-- C4 (amended): the analyzer treats any non-empty `cborgen` tag —
including `maxlen=N` — as a wire-key override, and the generated code
always enforces the default ceilings (8192 for textual/array fields,
2097152 for byte fields); no per-field ceiling override occurs. -/
theorem claim_C4 :
    (∀ name tagval : String, tagval ≠ "" → fieldMapKey name tagval = tagval) ∧
    (∀ bs : List Nat, ByteArrayMaxLen < bs.length → cborMarshalByteSliceField bs = none) ∧
    (∀ bs : List Nat, bs.length ≤ ByteArrayMaxLen →
        cborMarshalByteSliceField bs =
          some (writeMajorTypeHeaderBuf MajByteString bs.length ++ bs)) ∧
    (∀ s : List Nat, MaxLength < s.length → cborMarshalStringField s = none) := by
  refine ⟨?_, ?_, ?_, ?_⟩
  · intro name tagval h
    unfold fieldMapKey
    rw [if_pos h]
  · intro bs h
    unfold cborMarshalByteSliceField
    rw [if_pos (by omega)]
  · intro bs h
    unfold cborMarshalByteSliceField
    rw [if_neg (by omega)]
  · intro s h
    unfold cborMarshalStringField
    rw [if_pos (by omega)]

theorem claim_C4_witness :
    ("maxlen=10000000" ≠ "" ∧
      fieldMapKey "LargeBytes" "maxlen=10000000" = "maxlen=10000000") ∧
    (ByteArrayMaxLen < (List.replicate 3000000 (0 : Nat)).length ∧
      cborMarshalByteSliceField (List.replicate 3000000 (0 : Nat)) = none) ∧
    (([5, 6] : List Nat).length ≤ ByteArrayMaxLen ∧
      cborMarshalByteSliceField [5, 6] = some [0x42, 5, 6]) :=
  ⟨⟨by decide, claim_C4.1 "LargeBytes" "maxlen=10000000" (by decide)⟩,
   ⟨by rw [List.length_replicate]; norm_num [ByteArrayMaxLen],
    claim_C4.2.1 (List.replicate 3000000 0)
      (by rw [List.length_replicate]; norm_num [ByteArrayMaxLen])⟩,
   ⟨by norm_num [ByteArrayMaxLen],
    (claim_C4.2.2.1 [5, 6] (by norm_num [ByteArrayMaxLen])).trans (by decide)⟩⟩

/-- C5: a `Map(Text, elem)` field encoder rejects maps with more than 4096
entries; it emits the `Map` header and the pairs in ascending raw-key-byte
order, so any two iteration orders of the same entries produce identical
bytes; the field decoder rejects map headers longer than 4096. -/
theorem claim_C5 :
    (∀ (V : Type) (encV : V → Option (List Nat)) (l1 l2 : List (List Nat × V)),
        l1.Perm l2 → (l1.map Prod.fst).Nodup →
        cborMarshalMapField encV l1 = cborMarshalMapField encV l2) ∧
    (∀ (V : Type) (encV : V → Option (List Nat)) (l : List (List Nat × V)),
        4096 < l.length → cborMarshalMapField encV l = none) ∧
    (∀ (V : Type) (decV : List Nat → Option (V × List Nat)) (input : List Nat)
        (extra : Nat) (rest : List Nat),
        cborReadHeaderBuf input = some (MajMap, extra, rest) → 4096 < extra →
        cborUnmarshalMapField decV input = none) ∧
    cborMarshalMapField (fun v : Nat => some [v]) [([0x62], 2), ([0x61], 1)] =
      some [0xA2, 0x61, 0x61, 1, 0x61, 0x62, 2] := by
  refine ⟨?_, ?_, ?_, by decide⟩
  · intro V encV l1 l2 hp hnd
    exact cborMarshalMapField_perm encV hp hnd
  · intro V encV l h
    unfold cborMarshalMapField
    rw [if_pos h]
  · intro V decV input extra rest h hgt
    unfold cborUnmarshalMapField
    rw [h]
    simp [hgt]

theorem claim_C5_witness :
    (([([0x62], 2), ([0x61], 1)] : List (List Nat × Nat)).Perm
        [([0x61], 1), ([0x62], 2)] ∧
      (([([0x62], 2), ([0x61], 1)] : List (List Nat × Nat)).map Prod.fst).Nodup ∧
      cborMarshalMapField (fun v : Nat => some [v]) [([0x62], 2), ([0x61], 1)] =
        cborMarshalMapField (fun v : Nat => some [v]) [([0x61], 1), ([0x62], 2)]) ∧
    (cborReadHeaderBuf [0xB9, 0x10, 0x01] = some (MajMap, 4097, []) ∧
      (4096 : Nat) < 4097 ∧
      cborUnmarshalMapField (fun bs => cborUnmarshalUint64Field bs)
        [0xB9, 0x10, 0x01] = none) :=
  ⟨⟨by decide, by decide,
      claim_C5.1 Nat (fun v : Nat => some [v]) _ _ (by decide) (by decide)⟩,
    ⟨by decide, by decide,
      claim_C5.2.2.1 Nat (fun bs => cborUnmarshalUint64Field bs)
        [0xB9, 0x10, 0x01] 4097 [] (by decide) (by decide)⟩⟩

/-- C6: an absent optional field encodes to exactly the single byte `0xF6`
and decodes back to absent; a present optional field round-trips through
the peek-then-unread decoder — shown for `Optional(U64)` concretely and
for any optional shape whose inner encoder starts with a non-`0xF6` byte
and round-trips. -/
theorem claim_C6 :
    cborMarshalUint64PtrField none = [0xF6] ∧
    (∀ tail : List Nat,
        cborUnmarshalUint64PtrField (cborMarshalUint64PtrField none ++ tail) =
          some (none, tail)) ∧
    (∀ (v : Nat) (tail : List Nat), v < 2 ^ 64 →
        cborUnmarshalUint64PtrField (cborMarshalUint64PtrField (some v) ++ tail) =
          some (some v, tail)) ∧
    (∀ (α : Type) (enc : α → Option (List Nat)) (dec : List Nat → Option (α × List Nat)),
        (∀ a out, enc a = some out → ∃ b bs, out = b :: bs ∧ b ≠ 0xF6) →
        (∀ a out tail, enc a = some out → dec (out ++ tail) = some (a, tail)) →
        marshalOptionalField enc none = some [0xF6] ∧
        (∀ tail, unmarshalOptionalField dec (0xF6 :: tail) = some (none, tail)) ∧
        (∀ a out tail, enc a = some out →
          unmarshalOptionalField dec (out ++ tail) = some (some a, tail))) := by
  refine ⟨rfl, ?_, ?_, ?_⟩
  · intro tail
    simp [cborMarshalUint64PtrField, cborNull, cborUnmarshalUint64PtrField]
  · intro v tail hv
    obtain ⟨b, bs, hbs, hb⟩ := writeMajorTypeHeaderBuf_head MajUnsignedInt v
      (by norm_num [MajUnsignedInt])
    show cborUnmarshalUint64PtrField (writeMajorTypeHeaderBuf MajUnsignedInt v ++ tail) = _
    rw [hbs, List.cons_append]
    simp only [cborUnmarshalUint64PtrField]
    rw [if_neg hb, ← List.cons_append, ← hbs,
      cborReadHeaderBuf_write MajUnsignedInt v tail hv]
    simp
  · intro α enc dec hhead hrt
    refine ⟨rfl, ?_, ?_⟩
    · intro tail
      simp [unmarshalOptionalField]
    · intro a out tail hout
      obtain ⟨b, bs, hbs, hb⟩ := hhead a out hout
      rw [hbs, List.cons_append]
      simp only [unmarshalOptionalField]
      rw [if_neg hb, ← List.cons_append, ← hbs, hrt a out tail hout]

/-- A stand-in inner shape for the generic optional-field witness: the
encoder of an empty nested record (tuple form, zero fields). -/
def unitRecordEnc : Unit → Option (List Nat) := fun _ => some [0x80]

/-- The matching decoder for `unitRecordEnc`. -/
def unitRecordDec : List Nat → Option (Unit × List Nat) := fun bs =>
  match bs with
  | 128 :: r => some ((), r)
  | _ => none

theorem claim_C6_witness :
    ((3 : Nat) < 2 ^ 64 ∧
      cborUnmarshalUint64PtrField (cborMarshalUint64PtrField (some 3) ++ [9]) =
        some (some 3, [9])) ∧
    (marshalOptionalField unitRecordEnc none = some [0xF6] ∧
      unmarshalOptionalField unitRecordDec (0xF6 :: [5]) = some (none, [5]) ∧
      unmarshalOptionalField unitRecordDec ([0x80] ++ [5]) = some (some (), [5])) :=
  ⟨⟨by norm_num, claim_C6.2.2.1 3 [9] (by norm_num)⟩,
    by
      have h := claim_C6.2.2.2 Unit unitRecordEnc unitRecordDec
        (fun a out h => by
          simp only [unitRecordEnc, Option.some.injEq] at h
          exact ⟨0x80, [], h.symm, by decide⟩)
        (fun a out tail h => by
          simp only [unitRecordEnc, Option.some.injEq] at h
          subst h
          rfl)
      exact ⟨h.1, h.2.1 [5], h.2.2 () [0x80] [5] rfl⟩⟩

/-- C7: in named-map form an unknown wire key is not an error — the
iteration invokes the link scanner to advance past the value and
continues; decoding `A2 61 41 01 61 42 02` (known pair `A=1` plus unknown
pair `B=2`) under the one-field schema `{A: U64}` succeeds and yields
`A = 1`. -/
theorem claim_C7 :
    (∀ (R : Type) (dispatch : List Nat → Option (R → List Nat → Option (R × List Nat)))
        (n : Nat) (t : R) (bs name rest : List Nat),
        readStringBuf bs = some (name, rest) → dispatch name = none →
        unmarshalStructMapLoop dispatch (n + 1) t bs =
          unmarshalStructMapLoop dispatch n t ((scanValue rest).getD [])) ∧
    unmarshalRecA ⟨5⟩ [0xA2, 0x61, 0x41, 0x01, 0x61, 0x42, 0x02] = some ⟨1⟩ := by
  constructor
  · intro R dispatch n t bs name rest h1 h2
    simp only [unmarshalStructMapLoop, h1, h2]
  · decide

theorem claim_C7_witness :
    (readStringBuf [0x61, 0x42, 0x02] = some ([0x42], [0x02]) ∧
      dispatchRecA [0x42] = none) ∧
    unmarshalStructMapLoop dispatchRecA 1 (⟨1⟩ : RecA) [0x61, 0x42, 0x02] =
      unmarshalStructMapLoop dispatchRecA 0 (⟨1⟩ : RecA)
        ((scanValue [0x02]).getD []) :=
  ⟨⟨by decide, rfl⟩,
    claim_C7.1 RecA dispatchRecA 0 ⟨1⟩ [0x61, 0x42, 0x02] [0x42] [0x02]
      (by decide) rfl⟩

/-- C8: both generated decoder forms zero the destination record before
reading, so the result is independent of the record's prior content, and
fields not assigned by the input keep their defaults — concretely, decoding
a map carrying only `A=7` into a two-field record previously holding
`{A:9, B:9}` yields `{A:7, B:0}`. -/
theorem claim_C8 :
    (∀ (α : Type) (n : Nat) (dflt : α) (body : α → List Nat → Option (α × List Nat))
        (p1 p2 : α) (input : List Nat),
        unmarshalStructTupleRecord n dflt body p1 input =
          unmarshalStructTupleRecord n dflt body p2 input) ∧
    (∀ (R : Type) (dflt : R)
        (dispatch : List Nat → Option (R → List Nat → Option (R × List Nat)))
        (p1 p2 : R) (input : List Nat),
        unmarshalStructMap dflt dispatch p1 input =
          unmarshalStructMap dflt dispatch p2 input) ∧
    unmarshalRecAB ⟨9, 9⟩ [0xA1, 0x61, 0x41, 0x07] = some ⟨7, 0⟩ :=
  ⟨fun _ _ _ _ _ _ _ => rfl, fun _ _ _ _ _ _ => rfl, by decide⟩

/-- A tuple-form record with a `U64` field and a `Map(Text, elem)` field:
the emitted `MarshalCBOR` writes the precomputed two-element array header,
the integer field, then the map field. -/
def marshalDemoTupleRec {V : Type} (encV : V → Option (List Nat)) (x : Nat)
    (m : List (List Nat × V)) : Option (List Nat) :=
  marshalStructTuple 2 (
    match cborMarshalMapField encV m with
    | none => none
    | some f2 => some (cborMarshalUint64Field x ++ f2))

/-- C9: the generated encoder's output bytes depend only on the value and
the compiled schema — in particular they are unchanged when the Go map's
iteration order (the one run-to-run nondeterministic input) is permuted, so
repeated encoding of the same value is byte-identical. -/
theorem claim_C9 :
    ∀ (V : Type) (encV : V → Option (List Nat)) (x : Nat)
      (m1 m2 : List (List Nat × V)), m1.Perm m2 → (m1.map Prod.fst).Nodup →
      marshalDemoTupleRec encV x m1 = marshalDemoTupleRec encV x m2 := by
  intro V encV x m1 m2 hp hnd
  unfold marshalDemoTupleRec
  rw [cborMarshalMapField_perm encV hp hnd]

theorem claim_C9_witness :
    (([([0x62], 2), ([0x61], 1)] : List (List Nat × Nat)).Perm
        [([0x61], 1), ([0x62], 2)] ∧
      (([([0x62], 2), ([0x61], 1)] : List (List Nat × Nat)).map Prod.fst).Nodup) ∧
    marshalDemoTupleRec (fun v : Nat => some [v]) 7 [([0x62], 2), ([0x61], 1)] =
      marshalDemoTupleRec (fun v : Nat => some [v]) 7 [([0x61], 1), ([0x62], 2)] :=
  ⟨⟨by decide, by decide⟩,
    claim_C9 Nat (fun v : Nat => some [v]) 7 _ _ (by decide) (by decide)⟩

/-- C10: the generated named-map decoder discards the link scanner's
result when skipping an unknown key, so a malformed or truncated value
under an unknown key never makes that iteration fail at the skip site —
the loop continues from wherever the scanner stopped (end of input for a
truncated value); concretely, decoding `A1 61 42 81` (unknown key `B`
whose value is a truncated one-element array) under `{A: U64}` still
succeeds with the zero record. -/
theorem claim_C10 :
    (∀ (R : Type) (dispatch : List Nat → Option (R → List Nat → Option (R × List Nat)))
        (n : Nat) (t : R) (bs name rest : List Nat),
        readStringBuf bs = some (name, rest) → dispatch name = none →
        scanValue rest = none →
        unmarshalStructMapLoop dispatch (n + 1) t bs =
          unmarshalStructMapLoop dispatch n t []) ∧
    unmarshalRecA ⟨0⟩ [0xA1, 0x61, 0x42, 0x81] = some ⟨0⟩ := by
  constructor
  · intro R dispatch n t bs name rest h1 h2 h3
    simp only [unmarshalStructMapLoop, h1, h2, h3, Option.getD_none]
  · decide

theorem claim_C10_witness :
    (readStringBuf [0x61, 0x42, 0x81] = some ([0x42], [0x81]) ∧
      dispatchRecA [0x42] = none ∧ scanValue [0x81] = none) ∧
    unmarshalStructMapLoop dispatchRecA 1 (⟨0⟩ : RecA) [0x61, 0x42, 0x81] =
      unmarshalStructMapLoop dispatchRecA 0 (⟨0⟩ : RecA) [] :=
  ⟨⟨by decide, rfl, by decide⟩,
    claim_C10.1 RecA dispatchRecA 0 ⟨0⟩ [0x61, 0x42, 0x81] [0x42] [0x81]
      (by decide) rfl (by decide)⟩
